import Mathlib

/-!
Verification development for the abi-cafe test driver (`src/main.rs`).

This file gives a shallow embedding of the pure core of the driver:

* the `WriteBuffer` observation tree and the three C-ABI callbacks
  (`write_field`, `finished_val`, `finished_func`) that mutate it,
* the finalization pass (`finish_tests`),
* the reconciliation engine of `run_dynamic_test` (the structural diff of
  the four observation buffers, producing per-subtest results),
* the handwritten-mixing check of `do_test`,
* the `arg_ty` canonical type-name function,
* the report-accumulation control flow of `main`.

Modelling conventions: Rust `Vec<T>` becomes `List T` (with pushes at the
back written as `++ [x]`), a byte becomes `Nat`, a Rust `String` becomes
`List Char`, and code that would panic (`unwrap`, `expect`) returns
`Option`/`Except` with `none`/`error` at exactly the panicking inputs.
Theorems about the claims come after all definitions.
-/

/-- A Rust `String` / `&str`, modelled as its sequence of characters. -/
abbrev StrL := List Char

/-- One leaf field: the raw bytes of one scalar, as written by `write_field`.
Bytes are modelled as `Nat`. -/
abbrev FieldBytes := List Nat

/-- One value (argument or return): its ordered list of leaf fields. -/
abbrev ValueFields := List FieldBytes

/-- One function frame: the ordered list of values observed for that subtest. -/
abbrev FuncFrame := List ValueFields

/-- Tests write back the raw bytes of their values to a WriteBuffer.
Embeds `struct WriteBuffer { funcs: Vec<Vec<Vec<Vec<u8>>>> }` from
`run_dynamic_test`: subtests (functions) => values (args/returns) =>
subfields => bytes. -/
structure WriteBuffer where
  funcs : List FuncFrame
deriving DecidableEq, Repr

namespace WriteBuffer

/-- `WriteBuffer::new()`: preload the hierarchy for the first test. -/
def new : WriteBuffer :=
  { funcs := [[[]]] }

/-- `WriteBuffer::finish_tests`: remove the pending test (`self.funcs.pop()`).
`Vec::pop` on an empty vector is a no-op returning `None`, so this is total. -/
def finish_tests (b : WriteBuffer) : WriteBuffer :=
  { funcs := b.funcs.dropLast }

end WriteBuffer

/-- Callback `write_field`: push the bytes of an individual field onto the
last value of the last function frame
(`output.funcs.last_mut().unwrap().last_mut().unwrap().push(data)`).
Returns `none` exactly when one of the two `unwrap`s would panic. -/
def write_field (output : WriteBuffer) (data : FieldBytes) : Option WriteBuffer :=
  match output.funcs.getLast? with
  | none => none
  | some vals =>
    match vals.getLast? with
    | none => none
    | some fields =>
      some { funcs := output.funcs.dropLast ++ [vals.dropLast ++ [fields ++ [data]]] }

/-- Callback `finished_val`: this value is finished, push a new entry
(`output.funcs.last_mut().unwrap().push(vec![])`).
Returns `none` exactly when the `unwrap` would panic. -/
def finished_val (output : WriteBuffer) : Option WriteBuffer :=
  match output.funcs.getLast? with
  | none => none
  | some vals => some { funcs := output.funcs.dropLast ++ [vals ++ [[]]] }

/-- First half of `finished_func` on a single buffer: remove the pending value
(`output.funcs.last_mut().unwrap().pop().unwrap()`).
Returns `none` exactly when an `unwrap` would panic. -/
def pop_pending_val (output : WriteBuffer) : Option WriteBuffer :=
  match output.funcs.getLast? with
  | none => none
  | some vals =>
    match vals.getLast? with
    | none => none
    | some _ => some { funcs := output.funcs.dropLast ++ [vals.dropLast] }

/-- Callback `finished_func`: remove the pending value from both buffers,
then push a new pending function (`vec![vec![]]`) onto both. -/
def finished_func (output1 output2 : WriteBuffer) : Option (WriteBuffer × WriteBuffer) :=
  match pop_pending_val output1 with
  | none => none
  | some o1 =>
    match pop_pending_val output2 with
    | none => none
    | some o2 =>
      some ({ funcs := o1.funcs ++ [[[]]] }, { funcs := o2.funcs ++ [[[]]] })

/-- One callback invocation made by the loaded test against a pair of
observation buffers, as issued through `test_start`. `finished_func` always
targets the two (distinct) buffers of the pair, matching its
`(&mut WriteBuffer, &mut WriteBuffer)` signature. -/
inductive HarnessOp where
  | writeField (onFst : Bool) (data : FieldBytes)
  | finishedVal (onFst : Bool)
  | finishedFunc
deriving DecidableEq, Repr

/-- Run one harness callback on a pair of buffers; `none` models a panic. -/
def execOp (s : WriteBuffer × WriteBuffer) : HarnessOp → Option (WriteBuffer × WriteBuffer)
  | .writeField true data => (write_field s.1 data).map fun b => (b, s.2)
  | .writeField false data => (write_field s.2 data).map fun b => (s.1, b)
  | .finishedVal true => (finished_val s.1).map fun b => (b, s.2)
  | .finishedVal false => (finished_val s.2).map fun b => (s.1, b)
  | .finishedFunc => finished_func s.1 s.2

/-- Run a finite sequence of harness callbacks on a pair of buffers. -/
def execOps : WriteBuffer × WriteBuffer → List HarnessOp → Option (WriteBuffer × WriteBuffer)
  | s, [] => some s
  | s, op :: ops =>
    match execOp s op with
    | none => none
    | some s' => execOps s' ops

/-- The number of `finished_func` invocations in a callback sequence. -/
def countFinishedFunc (ops : List HarnessOp) : Nat :=
  ops.countP fun op =>
    match op with
    | .finishedFunc => true
    | _ => false

/-- The buffer invariant: the buffer ends with exactly one pending function
frame, and that frame contains at least one (pending) value. -/
def pending_inv (b : WriteBuffer) : Prop :=
  ∃ fs f, b.funcs = fs ++ [f] ∧ f ≠ []

/-- The per-operation growth of the function-frame count: `1` for
`finished_func`, `0` for the other two callbacks. -/
def opFuncGrowth : HarnessOp → Nat
  | .finishedFunc => 1
  | _ => 0

/-- `enum TestFailure` from `src/main.rs`: one recorded per-subtest failure.
Payloads keep the source order: indices, then the caller-side data, then the
callee-side data. -/
inductive TestFailure where
  | InputFieldMismatch (func input field : Nat) (caller callee : FieldBytes)
  | OutputFieldMismatch (func output field : Nat) (caller callee : FieldBytes)
  | InputFieldCountMismatch (func input : Nat) (caller callee : ValueFields)
  | OutputFieldCountMismatch (func output : Nat) (caller callee : ValueFields)
  | InputCountMismatch (func : Nat) (caller callee : FuncFrame)
  | OutputCountMismatch (func : Nat) (caller callee : FuncFrame)
deriving DecidableEq, Repr

/-- `enum BuildError` from `src/main.rs`: per-pairing fatal errors. The
variants whose payloads are I/O artifacts (raw process output, dynamic-loader
handles, parser state) carry an abstract message here; `TestCountMismatch`
keeps its five counts exactly as in the source. -/
inductive BuildError where
  | Io (msg : StrL)
  | ParseError (msg : StrL)
  | RustCompile (msg : StrL)
  | CCompile (msg : StrL)
  | LoadError (msg : StrL)
  | Unsupported (msg : StrL)
  | TestCountMismatch (expected caller_in caller_out callee_in callee_out : Nat)
  | InconsistentStructDefinition (name old_decl new_decl : StrL)
  | HandwrittenMixing
deriving DecidableEq, Repr

/-- Layer 3 of the reconciliation walk in `run_dynamic_test`: the
`for (field_idx, (caller_field, callee_field)) in caller_val.zip(callee_val)`
loop. Returns the failure built by `mk` at the first index whose byte
vectors differ, or `none` when the zipped walk finds no mismatch. `k` is
the enumeration index reached so far (`0` at the call site). -/
def check_fields (mk : Nat → FieldBytes → FieldBytes → TestFailure) :
    Nat → ValueFields → ValueFields → Option TestFailure
  | _, [], _ => none
  | _, _ :: _, [] => none
  | k, caller_field :: cfs, callee_field :: efs =>
    if caller_field ≠ callee_field then some (mk k caller_field callee_field)
    else check_fields mk (k + 1) cfs efs

/-- Layer 2 of the reconciliation walk: the
`for (input_idx, (caller_val, callee_val)) in caller_inputs.zip(callee_inputs)`
loop (and its twin for outputs). Per value, a field-count mismatch is
reported before any field-byte mismatch; the first failing value aborts the
walk (`continue 'funcs`). `j` is the enumeration index reached so far. -/
def check_vals (mkCount : Nat → ValueFields → ValueFields → TestFailure)
    (mkField : Nat → Nat → FieldBytes → FieldBytes → TestFailure) :
    Nat → FuncFrame → FuncFrame → Option TestFailure
  | _, [], _ => none
  | _, _ :: _, [] => none
  | j, caller_val :: cvs, callee_val :: evs =>
    if caller_val.length ≠ callee_val.length then some (mkCount j caller_val callee_val)
    else
      match check_fields (mkField j) 0 caller_val callee_val with
      | some e => some e
      | none => check_vals mkCount mkField (j + 1) cvs evs

/-- The body of the `'funcs` loop of `run_dynamic_test` for one function
index: input count check, output count check, then inputs (field counts and
bytes), then outputs. -/
def check_func (func_idx : Nat)
    (caller_inputs caller_outputs callee_inputs callee_outputs : FuncFrame) :
    Except TestFailure Unit :=
  if caller_inputs.length ≠ callee_inputs.length then
    .error (.InputCountMismatch func_idx caller_inputs callee_inputs)
  else if caller_outputs.length ≠ callee_outputs.length then
    .error (.OutputCountMismatch func_idx caller_outputs callee_outputs)
  else
    match check_vals (.InputFieldCountMismatch func_idx) (.InputFieldMismatch func_idx)
        0 caller_inputs callee_inputs with
    | some e => .error e
    | none =>
      match check_vals (.OutputFieldCountMismatch func_idx) (.OutputFieldMismatch func_idx)
          0 caller_outputs callee_outputs with
      | some e => .error e
      | none => .ok ()

/-- The full `'funcs` loop: the four buffers' function frames zipped together
(`zip` truncates at the shortest operand, exactly like the Rust iterator
chain) with one `Result` pushed per frame; a failure records and continues
with the next function frame. `func_idx` is the enumeration index reached so
far (`0` at the call site). -/
def reconcile (func_idx : Nat) :
    List FuncFrame → List FuncFrame → List FuncFrame → List FuncFrame →
    List (Except TestFailure Unit)
  | ci :: cis, co :: cos, ei :: eis, eo :: eos =>
    check_func func_idx ci co ei eo :: reconcile (func_idx + 1) cis cos eis eos
  | _, _, _, _ => []

/-- The pure tail of `run_dynamic_test` (everything after the dynamic call
into `test_start` has returned, `src/main.rs` lines 417-550): finalize the
four buffers, fail the whole pairing with `TestCountMismatch` when any
buffer's function count disagrees with `expected_test_count = test.funcs.len()`,
and otherwise reconcile the four observation trees into per-subtest results. -/
def run_dynamic_test (expected_test_count : Nat)
    (caller_inputs caller_outputs callee_inputs callee_outputs : WriteBuffer) :
    Except BuildError (List (Except TestFailure Unit)) :=
  let caller_inputs := caller_inputs.finish_tests
  let caller_outputs := caller_outputs.finish_tests
  let callee_inputs := callee_inputs.finish_tests
  let callee_outputs := callee_outputs.finish_tests
  if caller_inputs.funcs.length ≠ expected_test_count
      ∨ caller_outputs.funcs.length ≠ expected_test_count
      ∨ callee_inputs.funcs.length ≠ expected_test_count
      ∨ callee_outputs.funcs.length ≠ expected_test_count then
    .error (.TestCountMismatch expected_test_count
      caller_inputs.funcs.length caller_outputs.funcs.length
      callee_inputs.funcs.length callee_outputs.funcs.length)
  else
    .ok (reconcile 0 caller_inputs.funcs caller_outputs.funcs
      callee_inputs.funcs callee_outputs.funcs)

/-- Modelled from the spec: `enum CallingConvention` lives in the `abis`
module, which is not under `src/`; the spec (§3) fixes the closed variant set
`{C, Rust, Fastcall, Stdcall, Vectorcall, Handwritten, All}`. -/
inductive CallingConvention where
  | C
  | Rust
  | Fastcall
  | Stdcall
  | Vectorcall
  | Handwritten
  | All
deriving DecidableEq, Repr

/-- Alias so that the `Bool` constructor of `Val` below can still carry a
Lean `Bool` payload. -/
abbrev BoolLit := Bool

/-- Modelled from the spec and from `arg_ty` / `generate_procedural_tests`:
`enum IntVal` lives in the `abis` module, which is not under `src/`. The ten
variants are exactly those matched in `arg_ty` (`src/main.rs` lines 860-871);
literals are modelled as unbounded integers. -/
inductive IntVal where
  | c__int128 (v : Int)
  | c_int64_t (v : Int)
  | c_int32_t (v : Int)
  | c_int16_t (v : Int)
  | c_int8_t (v : Int)
  | c__uint128 (v : Nat)
  | c_uint64_t (v : Nat)
  | c_uint32_t (v : Nat)
  | c_uint16_t (v : Nat)
  | c_uint8_t (v : Nat)
deriving DecidableEq, Repr

/-- Modelled from the spec and from `arg_ty`: `enum FloatVal` lives in the
`abis` module, which is not under `src/`. Literals are modelled by their raw
bit patterns (the spec compares floats by bit equality). -/
inductive FloatVal where
  | c_double (bits : Nat)
  | c_float (bits : Nat)
deriving DecidableEq, Repr

/-- Modelled from the spec (§3) and from `arg_ty` / `generate_procedural_tests`:
`enum Val` lives in the `abis` module, which is not under `src/`. -/
inductive Val where
  | Ref (x : Val)
  | Ptr (v : Nat)
  | Bool (v : BoolLit)
  | Array (vals : List Val)
  | Struct (name : StrL) (fields : List Val)
  | Float (v : FloatVal)
  | Int (v : IntVal)

/-- Modelled from the spec (§3): `struct Func` lives in the `abis` module,
which is not under `src/`: `{name, conventions, inputs, output}`. -/
structure Func where
  name : StrL
  conventions : List CallingConvention
  inputs : List Val
  output : Option Val

/-- Modelled from the spec (§3): `struct Test` lives in the `abis` module,
which is not under `src/`: `{name, funcs}`. -/
structure Test where
  name : StrL
  funcs : List Func

/-- `TestReport` couples the original `Test` with one `Result` per `Func`. -/
structure TestReport where
  test : Test
  results : List (Except TestFailure Unit)

/-- `matches!(c, CallingConvention::Handwritten)` from `do_test`. -/
def convention_is_handwritten (c : CallingConvention) : Bool :=
  match c with
  | .Handwritten => true
  | _ => false

/-- From `do_test` (`src/main.rs` lines 189-193): some function declares the
`Handwritten` convention somewhere
(`test.funcs.iter().any(|f| f.conventions.iter().any(...))`). -/
def is_handwritten (test : Test) : Bool :=
  test.funcs.any fun f => f.conventions.any convention_is_handwritten

/-- From `do_test` (`src/main.rs` lines 194-198): every convention of every
function is `Handwritten`
(`test.funcs.iter().all(|f| f.conventions.iter().all(...))`). -/
def is_all_handwritten (test : Test) : Bool :=
  test.funcs.all fun f => f.conventions.all convention_is_handwritten

/-- The handwritten-coherence gate of `do_test` (`src/main.rs` lines 200-202),
reached before any source generation or compilation:
`if is_handwritten && !is_all_handwritten { return Err(HandwrittenMixing) }`. -/
def handwritten_check (test : Test) : Except BuildError Unit :=
  if is_handwritten test && !is_all_handwritten test then .error .HandwrittenMixing
  else .ok ()

/-- Stated from the spec's words for the claimed equivalence: the
`Handwritten` convention is present in (the convention list of) every `Func`
of the test, or in none of them. -/
def handwritten_all_or_none (test : Test) : Prop :=
  (∀ f ∈ test.funcs, .Handwritten ∈ f.conventions)
    ∨ (∀ f ∈ test.funcs, CallingConvention.Handwritten ∉ f.conventions)

instance (test : Test) : Decidable (handwritten_all_or_none test) := by
  unfold handwritten_all_or_none
  infer_instance

/-- The primitive leaves of a `Val` type shape (spec §3): the ten integer
widths, the two float widths, `bool` and `ptr`. -/
inductive PrimTy where
  | ptr
  | bool
  | f64
  | f32
  | i128
  | i64
  | i32
  | i16
  | i8
  | u128
  | u64
  | u32
  | u16
  | u8
deriving DecidableEq, Repr

/-- The type shape of a `Val` (spec §3): the constructor chain with widths,
array element shapes, and struct name plus field shapes, with the literal
payloads erased. -/
inductive ValShape where
  | ref (s : ValShape)
  | array (elems : List ValShape)
  | struct (name : StrL) (fields : List ValShape)
  | prim (p : PrimTy)

mutual

def ValShape.decEq : (a b : ValShape) → Decidable (a = b)
  | .ref x, .ref y =>
    match ValShape.decEq x y with
    | isTrue h => isTrue (by rw [h])
    | isFalse h => isFalse (by intro hh; injection hh; contradiction)
  | .ref _, .array _ => isFalse (by intro hh; exact ValShape.noConfusion hh)
  | .ref _, .struct _ _ => isFalse (by intro hh; exact ValShape.noConfusion hh)
  | .ref _, .prim _ => isFalse (by intro hh; exact ValShape.noConfusion hh)
  | .array _, .ref _ => isFalse (by intro hh; exact ValShape.noConfusion hh)
  | .array xs, .array ys =>
    match ValShape.decEqList xs ys with
    | isTrue h => isTrue (by rw [h])
    | isFalse h => isFalse (by intro hh; injection hh; contradiction)
  | .array _, .struct _ _ => isFalse (by intro hh; exact ValShape.noConfusion hh)
  | .array _, .prim _ => isFalse (by intro hh; exact ValShape.noConfusion hh)
  | .struct _ _, .ref _ => isFalse (by intro hh; exact ValShape.noConfusion hh)
  | .struct _ _, .array _ => isFalse (by intro hh; exact ValShape.noConfusion hh)
  | .struct n1 f1, .struct n2 f2 =>
    match instDecidableEqList n1 n2, ValShape.decEqList f1 f2 with
    | isTrue h1, isTrue h2 => isTrue (by rw [h1, h2])
    | isFalse h1, _ => isFalse (by intro hh; injection hh; contradiction)
    | _, isFalse h2 => isFalse (by intro hh; injection hh; contradiction)
  | .struct _ _, .prim _ => isFalse (by intro hh; exact ValShape.noConfusion hh)
  | .prim _, .ref _ => isFalse (by intro hh; exact ValShape.noConfusion hh)
  | .prim _, .array _ => isFalse (by intro hh; exact ValShape.noConfusion hh)
  | .prim _, .struct _ _ => isFalse (by intro hh; exact ValShape.noConfusion hh)
  | .prim p, .prim q =>
    match (inferInstance : Decidable (p = q)) with
    | isTrue h => isTrue (by rw [h])
    | isFalse h => isFalse (by intro hh; injection hh; contradiction)

def ValShape.decEqList : (a b : List ValShape) → Decidable (a = b)
  | [], [] => isTrue rfl
  | [], _ :: _ => isFalse (by intro hh; exact List.noConfusion hh)
  | _ :: _, [] => isFalse (by intro hh; exact List.noConfusion hh)
  | x :: xs, y :: ys =>
    match ValShape.decEq x y, ValShape.decEqList xs ys with
    | isTrue h1, isTrue h2 => isTrue (by rw [h1, h2])
    | isFalse h1, _ => isFalse (by intro hh; injection hh; contradiction)
    | _, isFalse h2 => isFalse (by intro hh; injection hh; contradiction)

end

instance : DecidableEq ValShape := ValShape.decEq

mutual

/-- The type shape of a `Val`: erase all literal payloads. -/
def shape : Val → ValShape
  | .Ref x => .ref (shape x)
  | .Ptr _ => .prim .ptr
  | .Bool _ => .prim .bool
  | .Array vals => .array (shapeList vals)
  | .Struct name fields => .struct name (shapeList fields)
  | .Float (.c_double _) => .prim .f64
  | .Float (.c_float _) => .prim .f32
  | .Int (.c__int128 _) => .prim .i128
  | .Int (.c_int64_t _) => .prim .i64
  | .Int (.c_int32_t _) => .prim .i32
  | .Int (.c_int16_t _) => .prim .i16
  | .Int (.c_int8_t _) => .prim .i8
  | .Int (.c__uint128 _) => .prim .u128
  | .Int (.c_uint64_t _) => .prim .u64
  | .Int (.c_uint32_t _) => .prim .u32
  | .Int (.c_uint16_t _) => .prim .u16
  | .Int (.c_uint8_t _) => .prim .u8

/-- Shapes of a list of `Val`s, in order. -/
def shapeList : List Val → List ValShape
  | [] => []
  | v :: vs => shape v :: shapeList vs

end

/-- The decimal rendering of a `Nat`, as produced for the `{}` of
`format!("arr_{}_{}", vals.len(), ...)`: most-significant digit first,
`"0"` for zero. -/
def natRepr (n : Nat) : StrL :=
  if n = 0 then ['0'] else ((Nat.digits 10 n).map fun d => Char.ofNat (48 + d)).reverse

/-- `arg_ty` (`src/main.rs` lines 845-873): the canonical type name of a
`Val` used to derive generated identifiers. `none` models the
`expect("arrays must have length > 0")` panic on an empty array. -/
def arg_ty : Val → Option StrL
  | .Ref x => (arg_ty x).map fun s => ['r', 'e', 'f', '_'] ++ s
  | .Ptr _ => some ['p', 't', 'r']
  | .Bool _ => some ['b', 'o', 'o', 'l']
  | .Array [] => none
  | .Array (v :: rest) =>
    (arg_ty v).map fun s => ['a', 'r', 'r', '_'] ++ natRepr (v :: rest).length ++ '_' :: s
  | .Struct name _ => some (['s', 't', 'r', 'u', 'c', 't', '_'] ++ name)
  | .Float (.c_double _) => some ['f', '6', '4']
  | .Float (.c_float _) => some ['f', '3', '2']
  | .Int (.c__int128 _) => some ['i', '1', '2', '8']
  | .Int (.c_int64_t _) => some ['i', '6', '4']
  | .Int (.c_int32_t _) => some ['i', '3', '2']
  | .Int (.c_int16_t _) => some ['i', '1', '6']
  | .Int (.c_int8_t _) => some ['i', '8']
  | .Int (.c__uint128 _) => some ['u', '1', '2', '8']
  | .Int (.c_uint64_t _) => some ['u', '6', '4']
  | .Int (.c_uint32_t _) => some ['u', '3', '2']
  | .Int (.c_uint16_t _) => some ['u', '1', '6']
  | .Int (.c_uint8_t _) => some ['u', '8']

mutual

/-- Data-model well-formedness of arrays inside a `Val` (spec §3): every
`Array` is non-empty and homogeneous (all elements share the first
element's type shape). -/
def arraysOk : Val → Bool
  | .Ref x => arraysOk x
  | .Ptr _ => true
  | .Bool _ => true
  | .Array [] => false
  | .Array (v :: rest) =>
    arraysOkList (v :: rest) && (v :: rest).all fun w => shape w == shape v
  | .Struct _ fields => arraysOkList fields
  | .Float _ => true
  | .Int _ => true

def arraysOkList : List Val → Bool
  | [] => true
  | v :: vs => arraysOk v && arraysOkList vs

end

mutual

/-- All `Struct` occurrences inside a `Val`, as `(name, fields)` pairs. -/
def structsIn : Val → List (StrL × List Val)
  | .Ref x => structsIn x
  | .Ptr _ => []
  | .Bool _ => []
  | .Array vals => structsInList vals
  | .Struct name fields => (name, fields) :: structsInList fields
  | .Float _ => []
  | .Int _ => []

def structsInList : List Val → List (StrL × List Val)
  | [] => []
  | v :: vs => structsIn v ++ structsInList vs

end

/-- Struct coherence across a pair of `Val`s (spec §3 / §8): any two struct
occurrences with the same name, anywhere inside either value, have identical
field shapes. -/
def structCoherent2 (v1 v2 : Val) : Prop :=
  ∀ p ∈ structsIn v1 ++ structsIn v2, ∀ q ∈ structsIn v1 ++ structsIn v2,
    p.1 = q.1 → shapeList p.2 = shapeList q.2

instance (v1 v2 : Val) : Decidable (structCoherent2 v1 v2) := by
  unfold structCoherent2
  infer_instance

/-- Class index of the leading character of a canonical type name:
`r`ef, `p`tr, `b`ool, `a`rr, `s`truct, `f`loat, and anything else (the
integer names, starting `i` or `u`). -/
def classifyChar (c : Char) : Nat :=
  if c = 'r' then 0
  else if c = 'p' then 1
  else if c = 'b' then 2
  else if c = 'a' then 3
  else if c = 's' then 4
  else if c = 'f' then 5
  else 6

/-- Constructor class of a `Val`, aligned with `classifyChar`. -/
def argTyClass : Val → Nat
  | .Ref _ => 0
  | .Ptr _ => 1
  | .Bool _ => 2
  | .Array _ => 3
  | .Struct _ _ => 4
  | .Float _ => 5
  | .Int _ => 6

/-- The report accumulation of `main` (`src/main.rs` lines 102-114): every
pairing's result — `Ok(TestReport)` or a captured `BuildError` — is pushed
onto the `reports` vector, never propagated. -/
def main_reports (outcomes : List (Except BuildError TestReport)) :
    List (Except BuildError TestReport) :=
  outcomes.foldl (fun reports result => reports ++ [result]) []

/-- `Result::is_ok` on a subtest result. -/
def subtest_is_ok (r : Except TestFailure Unit) : Bool :=
  match r with
  | .ok _ => true
  | .error _ => false

/-- One step of the final printout loop of `main` (`src/main.rs` lines
122-166), accumulating `(passes, fails, total_fails)`: a captured
`BuildError` counts one `total_fails`; an all-passed report adds its passed
count and skips the breakdown; otherwise the breakdown walks the subtest
names zipped with the results (hence at most `|test.funcs|` entries). -/
def summarize_report (acc : Nat × Nat × Nat) (entry : Except BuildError TestReport) :
    Nat × Nat × Nat :=
  match acc, entry with
  | (passes, fails, total_fails), .error _ => (passes, fails, total_fails + 1)
  | (passes, fails, total_fails), .ok report =>
    let num_passed := (report.results.filter subtest_is_ok).length
    if num_passed = report.results.length then
      (passes + num_passed, fails, total_fails)
    else
      let walked := report.results.take report.test.funcs.length
      (passes + (walked.filter subtest_is_ok).length,
        fails + (walked.filter fun r => !subtest_is_ok r).length,
        total_fails)

/-- The driver `main` (`src/main.rs` lines 88-170), abstracted over the
per-pairing outcomes that `do_test` produced: accumulate every outcome into
the report list, compute the final summary, and return `Ok(())`. The error
type stands for the `Box<dyn Error>` of driver-level failures. -/
def main_driver (outcomes : List (Except BuildError TestReport)) : Except StrL Unit :=
  let reports := main_reports outcomes
  let _summary := reports.foldl summarize_report (0, 0, 0)
  Except.ok ()

/-- Stated from the spec's words (§4.7 and the claim): the failure recorded
for function index `i` is the *first* disagreement between the caller's
frames (`ci` inputs, `co` outputs) and the callee's frames (`ei`, `eo`), in
the fixed priority order: input count, then output count, then the
per-input-value walk (field count of a value before its field bytes, earlier
values before later ones), then the same walk for outputs (reached only with
the inputs in full agreement). Every payload is pinned to the data of the
compared frames. -/
def FailureSound (i : Nat) (ci co ei eo : FuncFrame) : TestFailure → Prop
  | .InputCountMismatch i' a b =>
    i' = i ∧ a = ci ∧ b = ei ∧ ci.length ≠ ei.length
  | .OutputCountMismatch i' a b =>
    i' = i ∧ a = co ∧ b = eo ∧ ci.length = ei.length ∧ co.length ≠ eo.length
  | .InputFieldCountMismatch i' j a b =>
    i' = i ∧ ci.length = ei.length ∧ co.length = eo.length ∧
    ci[j]? = some a ∧ ei[j]? = some b ∧ a.length ≠ b.length ∧
    ∀ j' < j, ci[j']? = ei[j']?
  | .InputFieldMismatch i' j k a b =>
    i' = i ∧ ci.length = ei.length ∧ co.length = eo.length ∧
    ∃ cv ev, ci[j]? = some cv ∧ ei[j]? = some ev ∧ cv.length = ev.length ∧
      cv[k]? = some a ∧ ev[k]? = some b ∧ a ≠ b ∧
      (∀ k' < k, cv[k']? = ev[k']?) ∧ (∀ j' < j, ci[j']? = ei[j']?)
  | .OutputFieldCountMismatch i' j a b =>
    i' = i ∧ ci = ei ∧ co.length = eo.length ∧
    co[j]? = some a ∧ eo[j]? = some b ∧ a.length ≠ b.length ∧
    ∀ j' < j, co[j']? = eo[j']?
  | .OutputFieldMismatch i' j k a b =>
    i' = i ∧ ci = ei ∧ co.length = eo.length ∧
    ∃ cv ev, co[j]? = some cv ∧ eo[j]? = some ev ∧ cv.length = ev.length ∧
      cv[k]? = some a ∧ ev[k]? = some b ∧ a ≠ b ∧
      (∀ k' < k, cv[k']? = ev[k']?) ∧ (∀ j' < j, co[j']? = eo[j']?)

/-! ### Lemmas about the write-back callbacks -/

theorem write_field_concat (fs : List FuncFrame) (vals : FuncFrame)
    (fields : ValueFields) (data : FieldBytes) :
    write_field ⟨fs ++ [vals ++ [fields]]⟩ data
      = some ⟨fs ++ [vals ++ [fields ++ [data]]]⟩ := by
  simp [write_field, List.getLast?_concat, List.dropLast_concat]

theorem finished_val_concat (fs : List FuncFrame) (vals : FuncFrame) :
    finished_val ⟨fs ++ [vals]⟩ = some ⟨fs ++ [vals ++ [[]]]⟩ := by
  simp [finished_val, List.getLast?_concat, List.dropLast_concat]

theorem pop_pending_val_concat (fs : List FuncFrame) (vals : FuncFrame)
    (lastv : ValueFields) :
    pop_pending_val ⟨fs ++ [vals ++ [lastv]]⟩ = some ⟨fs ++ [vals]⟩ := by
  simp [pop_pending_val, List.getLast?_concat, List.dropLast_concat]

theorem finished_func_concat (fs1 : List FuncFrame) (vals1 : FuncFrame)
    (lastv1 : ValueFields) (fs2 : List FuncFrame) (vals2 : FuncFrame)
    (lastv2 : ValueFields) :
    finished_func ⟨fs1 ++ [vals1 ++ [lastv1]]⟩ ⟨fs2 ++ [vals2 ++ [lastv2]]⟩
      = some (⟨(fs1 ++ [vals1]) ++ [[[]]]⟩, ⟨(fs2 ++ [vals2]) ++ [[[]]]⟩) := by
  simp [finished_func, pop_pending_val_concat]

theorem pending_inv_new : pending_inv WriteBuffer.new :=
  ⟨[], [[]], rfl, by simp⟩

/-- Decompose a buffer satisfying the invariant into its closed prefix, the
body of the pending frame, and the pending frame's last value. -/
theorem pending_inv_elim (b : WriteBuffer) (h : pending_inv b) :
    ∃ fs vals lastv, b = ⟨fs ++ [vals ++ [lastv]]⟩ := by
  obtain ⟨fs, f, hb, hf⟩ := h
  refine ⟨fs, f.dropLast, f.getLast hf, ?_⟩
  cases b
  simp only [WriteBuffer.mk.injEq] at hb ⊢
  rw [List.dropLast_append_getLast hf]
  exact hb

theorem write_field_of_inv (b : WriteBuffer) (data : FieldBytes) (h : pending_inv b) :
    ∃ b', write_field b data = some b' ∧ pending_inv b'
      ∧ b'.funcs.length = b.funcs.length := by
  obtain ⟨fs, vals, lastv, rfl⟩ := pending_inv_elim b h
  exact ⟨_, write_field_concat fs vals lastv data,
    ⟨fs, _, rfl, by simp⟩, by simp⟩

theorem finished_val_of_inv (b : WriteBuffer) (h : pending_inv b) :
    ∃ b', finished_val b = some b' ∧ pending_inv b'
      ∧ b'.funcs.length = b.funcs.length := by
  obtain ⟨fs, vals, lastv, rfl⟩ := pending_inv_elim b h
  exact ⟨_, finished_val_concat fs (vals ++ [lastv]),
    ⟨fs, _, rfl, by simp⟩, by simp⟩

theorem finished_func_of_inv (b1 b2 : WriteBuffer)
    (h1 : pending_inv b1) (h2 : pending_inv b2) :
    ∃ b1' b2', finished_func b1 b2 = some (b1', b2')
      ∧ pending_inv b1' ∧ pending_inv b2'
      ∧ b1'.funcs.length = b1.funcs.length + 1
      ∧ b2'.funcs.length = b2.funcs.length + 1 := by
  obtain ⟨fs1, vals1, lastv1, rfl⟩ := pending_inv_elim b1 h1
  obtain ⟨fs2, vals2, lastv2, rfl⟩ := pending_inv_elim b2 h2
  exact ⟨_, _, finished_func_concat fs1 vals1 lastv1 fs2 vals2 lastv2,
    ⟨fs1 ++ [vals1], [[]], rfl, by simp⟩,
    ⟨fs2 ++ [vals2], [[]], rfl, by simp⟩, by simp, by simp⟩

theorem execOp_of_inv (s : WriteBuffer × WriteBuffer) (op : HarnessOp)
    (h1 : pending_inv s.1) (h2 : pending_inv s.2) :
    ∃ s', execOp s op = some s' ∧ pending_inv s'.1 ∧ pending_inv s'.2
      ∧ s'.1.funcs.length = s.1.funcs.length + opFuncGrowth op
      ∧ s'.2.funcs.length = s.2.funcs.length + opFuncGrowth op := by
  cases op with
  | writeField onFst data =>
    cases onFst
    · obtain ⟨b', hw, hinv, hlen⟩ := write_field_of_inv s.2 data h2
      exact ⟨(s.1, b'), by simp [execOp, hw], h1, hinv, by simp [opFuncGrowth],
        by simp [opFuncGrowth, hlen]⟩
    · obtain ⟨b', hw, hinv, hlen⟩ := write_field_of_inv s.1 data h1
      exact ⟨(b', s.2), by simp [execOp, hw], hinv, h2,
        by simp [opFuncGrowth, hlen], by simp [opFuncGrowth]⟩
  | finishedVal onFst =>
    cases onFst
    · obtain ⟨b', hw, hinv, hlen⟩ := finished_val_of_inv s.2 h2
      exact ⟨(s.1, b'), by simp [execOp, hw], h1, hinv, by simp [opFuncGrowth],
        by simp [opFuncGrowth, hlen]⟩
    · obtain ⟨b', hw, hinv, hlen⟩ := finished_val_of_inv s.1 h1
      exact ⟨(b', s.2), by simp [execOp, hw], hinv, h2,
        by simp [opFuncGrowth, hlen], by simp [opFuncGrowth]⟩
  | finishedFunc =>
    obtain ⟨b1', b2', hw, hinv1, hinv2, hlen1, hlen2⟩ := finished_func_of_inv s.1 s.2 h1 h2
    exact ⟨(b1', b2'), by simp [execOp, hw], hinv1, hinv2,
      by simpa [opFuncGrowth] using hlen1, by simpa [opFuncGrowth] using hlen2⟩

theorem execOps_of_inv (ops : List HarnessOp) :
    ∀ s : WriteBuffer × WriteBuffer, pending_inv s.1 → pending_inv s.2 →
    ∃ s', execOps s ops = some s' ∧ pending_inv s'.1 ∧ pending_inv s'.2
      ∧ s'.1.funcs.length = s.1.funcs.length + countFinishedFunc ops
      ∧ s'.2.funcs.length = s.2.funcs.length + countFinishedFunc ops := by
  induction ops with
  | nil =>
    intro s h1 h2
    exact ⟨s, rfl, h1, h2, by simp [countFinishedFunc], by simp [countFinishedFunc]⟩
  | cons op ops ih =>
    intro s h1 h2
    obtain ⟨s', hstep, h1', h2', hlen1, hlen2⟩ := execOp_of_inv s op h1 h2
    obtain ⟨s'', hrest, h1'', h2'', hlen1', hlen2'⟩ := ih s' h1' h2'
    have hcount : countFinishedFunc (op :: ops)
        = countFinishedFunc ops + opFuncGrowth op := by
      cases op <;> simp [countFinishedFunc, List.countP_cons, opFuncGrowth]
    refine ⟨s'', ?_, h1'', h2'', by omega, by omega⟩
    simpa [execOps, hstep] using hrest

/-- Claim C4: starting from `WriteBuffer::new()`, any finite sequence of
`write_field`, `finished_val` and `finished_func` calls (the latter applied
to the two distinct buffers of the pair) executes without any `unwrap`
panicking (`execOps` returns `some`), and afterwards every buffer ends with
exactly one pending function frame containing at least one pending value. -/
theorem C4_callbacks_preserve_pending_invariant (ops : List HarnessOp) :
    ∃ s, execOps (WriteBuffer.new, WriteBuffer.new) ops = some s
      ∧ pending_inv s.1 ∧ pending_inv s.2 := by
  obtain ⟨s, hs, h1, h2, -, -⟩ :=
    execOps_of_inv ops (WriteBuffer.new, WriteBuffer.new) pending_inv_new pending_inv_new
  exact ⟨s, hs, h1, h2⟩

/-- Claim C5: after a callback sequence containing exactly
`countFinishedFunc ops` many `finished_func` calls, `finish_tests` pops the
single trailing pending function, leaving each buffer with exactly that many
closed function frames. -/
theorem C5_finish_tests_leaves_finished_func_count (ops : List HarnessOp) :
    (execOps (WriteBuffer.new, WriteBuffer.new) ops).map
        (fun s => (s.1.finish_tests.funcs.length, s.2.finish_tests.funcs.length))
      = some (countFinishedFunc ops, countFinishedFunc ops) := by
  obtain ⟨s, hs, -, -, hlen1, hlen2⟩ :=
    execOps_of_inv ops (WriteBuffer.new, WriteBuffer.new) pending_inv_new pending_inv_new
  have hnew1 : (WriteBuffer.new, WriteBuffer.new).1.funcs.length = 1 := rfl
  have hnew2 : (WriteBuffer.new, WriteBuffer.new).2.funcs.length = 1 := rfl
  rw [hs]
  simp only [Option.map_some', Option.some.injEq, Prod.mk.injEq]
  constructor
  · simp only [WriteBuffer.finish_tests, List.length_dropLast]
    omega
  · simp only [WriteBuffer.finish_tests, List.length_dropLast]
    omega

/-- Claim C8: `finished_val` appends one new empty pending value to the
buffer's last function frame and never consumes bytes — the closed frames
`fs`, the values `vals` already in the last frame, and all their field bytes
reappear unchanged. -/
theorem C8_finished_val_appends_empty_value (fs : List FuncFrame) (vals : FuncFrame) :
    finished_val ⟨fs ++ [vals]⟩ = some ⟨fs ++ [vals ++ [[]]]⟩ := by
  simp [finished_val, List.getLast?_concat, List.dropLast_concat]

/-- Claim C10: `finished_func` unconditionally removes the trailing pending
value from both buffers — even a non-empty `lastv1` / `lastv2` (fields
written by `write_field` since the last `finished_val`) is silently
discarded and appears in no closed function frame — and then opens a fresh
pending function frame on both buffers. -/
theorem C10_finished_func_discards_pending_value (fs1 : List FuncFrame)
    (vals1 : FuncFrame) (lastv1 : ValueFields) (fs2 : List FuncFrame)
    (vals2 : FuncFrame) (lastv2 : ValueFields) :
    finished_func ⟨fs1 ++ [vals1 ++ [lastv1]]⟩ ⟨fs2 ++ [vals2 ++ [lastv2]]⟩
      = some (⟨(fs1 ++ [vals1]) ++ [[[]]]⟩, ⟨(fs2 ++ [vals2]) ++ [[[]]]⟩) := by
  simp [finished_func, pop_pending_val_concat]

/-! ### Lemmas about the reconciliation engine -/

theorem check_fields_none_iff (mk : Nat → FieldBytes → FieldBytes → TestFailure) :
    ∀ (k : Nat) (cv ev : ValueFields), cv.length = ev.length →
    (check_fields mk k cv ev = none ↔ cv = ev) := by
  intro k cv
  induction cv generalizing k with
  | nil =>
    intro ev h
    cases ev with
    | nil => simp [check_fields]
    | cons e es => simp at h
  | cons c cs ih =>
    intro ev h
    cases ev with
    | nil => simp at h
    | cons e es =>
      by_cases hce : c = e
      · subst hce
        rw [check_fields, if_neg (by simp)]
        rw [ih (k + 1) es (by simpa using h)]
        simp
      · rw [check_fields, if_pos hce]
        simp [hce]

theorem check_fields_some (mk : Nat → FieldBytes → FieldBytes → TestFailure) :
    ∀ (k : Nat) (cv ev : ValueFields) (e : TestFailure),
    check_fields mk k cv ev = some e →
    ∃ d a b, cv[d]? = some a ∧ ev[d]? = some b ∧ a ≠ b ∧ e = mk (k + d) a b
      ∧ ∀ d' < d, cv[d']? = ev[d']? := by
  intro k cv
  induction cv generalizing k with
  | nil =>
    intro ev e h
    cases ev <;> simp [check_fields] at h
  | cons c cs ih =>
    intro ev e h
    cases ev with
    | nil => simp [check_fields] at h
    | cons f es =>
      by_cases hcf : c = f
      · subst hcf
        rw [check_fields, if_neg (by simp)] at h
        obtain ⟨d, a, b, ha, hb, hab, he, hlt⟩ := ih (k + 1) es e h
        have harith : k + 1 + d = k + (d + 1) := by omega
        refine ⟨d + 1, a, b, by simpa using ha, by simpa using hb, hab,
          by rw [he, harith], ?_⟩
        intro d' hd'
        cases d' with
        | zero => simp
        | succ d'' => simpa using hlt d'' (by omega)
      · rw [check_fields, if_pos hcf] at h
        refine ⟨0, c, f, by simp, by simp, hcf, ?_, by omega⟩
        injection h with h
        rw [← h]
        simp

/-- A `some` result of `check_fields` forces the two value lists apart. -/
theorem check_fields_some_ne (mk : Nat → FieldBytes → FieldBytes → TestFailure)
    (k : Nat) (cv ev : ValueFields) (e : TestFailure)
    (h : check_fields mk k cv ev = some e) : cv ≠ ev := by
  obtain ⟨d, a, b, ha, hb, hab, -, -⟩ := check_fields_some mk k cv ev e h
  intro hcontra
  rw [hcontra, hb] at ha
  injection ha with hba
  exact hab hba.symm

theorem check_vals_none_iff (mkCount : Nat → ValueFields → ValueFields → TestFailure)
    (mkField : Nat → Nat → FieldBytes → FieldBytes → TestFailure) :
    ∀ (j : Nat) (cvs evs : FuncFrame), cvs.length = evs.length →
    (check_vals mkCount mkField j cvs evs = none ↔ cvs = evs) := by
  intro j cvs
  induction cvs generalizing j with
  | nil =>
    intro evs h
    cases evs with
    | nil => simp [check_vals]
    | cons e es => simp at h
  | cons cv cvs ih =>
    intro evs h
    cases evs with
    | nil => simp at h
    | cons ev evs =>
      by_cases hlen : cv.length = ev.length
      · rw [check_vals, if_neg (by simpa using hlen)]
        cases hcf : check_fields (mkField j) 0 cv ev with
        | none =>
          have hcveq : cv = ev := (check_fields_none_iff (mkField j) 0 cv ev hlen).mp hcf
          rw [ih (j + 1) evs (by simpa using h)]
          simp [hcveq]
        | some e0 =>
          have hne : cv ≠ ev := check_fields_some_ne (mkField j) 0 cv ev e0 hcf
          simp [hne]
      · rw [check_vals, if_pos hlen]
        have hne : cv ≠ ev := fun hcontra => hlen (by rw [hcontra])
        simp [hne]

theorem check_vals_some (mkCount : Nat → ValueFields → ValueFields → TestFailure)
    (mkField : Nat → Nat → FieldBytes → FieldBytes → TestFailure) :
    ∀ (j : Nat) (cvs evs : FuncFrame) (e : TestFailure),
    check_vals mkCount mkField j cvs evs = some e →
    ∃ d cv ev, cvs[d]? = some cv ∧ evs[d]? = some ev
      ∧ (∀ d' < d, cvs[d']? = evs[d']?)
      ∧ ((cv.length ≠ ev.length ∧ e = mkCount (j + d) cv ev)
        ∨ (cv.length = ev.length
          ∧ ∃ k a b, cv[k]? = some a ∧ ev[k]? = some b ∧ a ≠ b
            ∧ e = mkField (j + d) k a b ∧ ∀ k' < k, cv[k']? = ev[k']?)) := by
  intro j cvs
  induction cvs generalizing j with
  | nil =>
    intro evs e h
    cases evs <;> simp [check_vals] at h
  | cons cv cvs ih =>
    intro evs e h
    cases evs with
    | nil => simp [check_vals] at h
    | cons ev evs =>
      by_cases hlen : cv.length = ev.length
      · rw [check_vals, if_neg (by simpa using hlen)] at h
        cases hcf : check_fields (mkField j) 0 cv ev with
        | none =>
          rw [hcf] at h
          obtain ⟨d, cv', ev', ha, hb, hlt, hrest⟩ := ih (j + 1) evs e h
          have harith : j + 1 + d = j + (d + 1) := by omega
          refine ⟨d + 1, cv', ev', by simpa using ha, by simpa using hb, ?_, ?_⟩
          · intro d' hd'
            cases d' with
            | zero =>
              have hcveq : cv = ev := (check_fields_none_iff (mkField j) 0 cv ev hlen).mp hcf
              simp [hcveq]
            | succ d'' => simpa using hlt d'' (by omega)
          · rw [harith] at hrest
            exact hrest
        | some e0 =>
          rw [hcf] at h
          injection h with h
          subst h
          obtain ⟨k, a, b, hak, hbk, hab, he0, hklt⟩ :=
            check_fields_some (mkField j) 0 cv ev e0 hcf
          refine ⟨0, cv, ev, by simp, by simp, by omega, Or.inr ⟨hlen, k, a, b,
            hak, hbk, hab, ?_, hklt⟩⟩
          rw [he0]
          simp
      · rw [check_vals, if_pos hlen] at h
        injection h with h
        refine ⟨0, cv, ev, by simp, by simp, by omega, Or.inl ⟨hlen, ?_⟩⟩
        rw [← h]
        simp

/-- A `some` result of `check_vals` forces the two frames apart. -/
theorem check_vals_some_ne (mkCount : Nat → ValueFields → ValueFields → TestFailure)
    (mkField : Nat → Nat → FieldBytes → FieldBytes → TestFailure)
    (j : Nat) (cvs evs : FuncFrame) (e : TestFailure)
    (h : check_vals mkCount mkField j cvs evs = some e) : cvs ≠ evs := by
  obtain ⟨d, cv, ev, ha, hb, -, hrest⟩ := check_vals_some mkCount mkField j cvs evs e h
  intro hcontra
  rw [hcontra, hb] at ha
  injection ha with hvev
  cases hrest with
  | inl hc => exact hc.1 (by rw [hvev])
  | inr hc =>
    obtain ⟨-, k, a, b, hak, hbk, hab, -, -⟩ := hc
    rw [hvev] at hbk
    rw [hbk] at hak
    injection hak with hba
    exact hab hba.symm

theorem check_func_ok_iff (i : Nat) (ci co ei eo : FuncFrame) :
    check_func i ci co ei eo = .ok () ↔ (ci = ei ∧ co = eo) := by
  unfold check_func
  by_cases h1 : ci.length = ei.length
  · rw [if_neg (by simpa using h1)]
    by_cases h2 : co.length = eo.length
    · rw [if_neg (by simpa using h2)]
      cases hin : check_vals (.InputFieldCountMismatch i) (.InputFieldMismatch i)
          0 ci ei with
      | some e =>
        have hne : ci ≠ ei := check_vals_some_ne _ _ 0 ci ei e hin
        simp [hne]
      | none =>
        have hieq : ci = ei :=
          (check_vals_none_iff (.InputFieldCountMismatch i) (.InputFieldMismatch i)
            0 ci ei h1).mp hin
        cases hout : check_vals (.OutputFieldCountMismatch i) (.OutputFieldMismatch i)
            0 co eo with
        | some e =>
          have hne : co ≠ eo := check_vals_some_ne _ _ 0 co eo e hout
          simp [hne]
        | none =>
          have hoeq : co = eo :=
            (check_vals_none_iff (.OutputFieldCountMismatch i) (.OutputFieldMismatch i)
              0 co eo h2).mp hout
          simp [hieq, hoeq]
    · rw [if_pos h2]
      have hne : co ≠ eo := fun hcontra => h2 (by rw [hcontra])
      simp [hne]
  · rw [if_pos h1]
    have hne : ci ≠ ei := fun hcontra => h1 (by rw [hcontra])
    simp [hne]

theorem check_func_error_sound (i : Nat) (ci co ei eo : FuncFrame) (e : TestFailure)
    (h : check_func i ci co ei eo = .error e) : FailureSound i ci co ei eo e := by
  unfold check_func at h
  by_cases h1 : ci.length = ei.length
  · rw [if_neg (by simpa using h1)] at h
    by_cases h2 : co.length = eo.length
    · rw [if_neg (by simpa using h2)] at h
      cases hin : check_vals (.InputFieldCountMismatch i) (.InputFieldMismatch i)
          0 ci ei with
      | some e0 =>
        rw [hin] at h
        injection h with h
        subst h
        obtain ⟨d, cv, ev, ha, hb, hlt, hrest⟩ :=
          check_vals_some _ _ 0 ci ei e0 hin
        cases hrest with
        | inl hc =>
          obtain ⟨hlen, he⟩ := hc
          subst he
          simp only [Nat.zero_add] at *
          exact ⟨rfl, h1, h2, ha, hb, hlen, hlt⟩
        | inr hc =>
          obtain ⟨hlen, k, a, b, hak, hbk, hab, he, hklt⟩ := hc
          subst he
          simp only [Nat.zero_add] at *
          exact ⟨rfl, h1, h2, cv, ev, ha, hb, hlen, hak, hbk, hab, hklt, hlt⟩
      | none =>
        rw [hin] at h
        have hieq : ci = ei :=
          (check_vals_none_iff (.InputFieldCountMismatch i) (.InputFieldMismatch i)
            0 ci ei h1).mp hin
        cases hout : check_vals (.OutputFieldCountMismatch i) (.OutputFieldMismatch i)
            0 co eo with
        | some e0 =>
          rw [hout] at h
          injection h with h
          subst h
          obtain ⟨d, cv, ev, ha, hb, hlt, hrest⟩ :=
            check_vals_some _ _ 0 co eo e0 hout
          cases hrest with
          | inl hc =>
            obtain ⟨hlen, he⟩ := hc
            subst he
            simp only [Nat.zero_add] at *
            exact ⟨rfl, hieq, h2, ha, hb, hlen, hlt⟩
          | inr hc =>
            obtain ⟨hlen, k, a, b, hak, hbk, hab, he, hklt⟩ := hc
            subst he
            simp only [Nat.zero_add] at *
            exact ⟨rfl, hieq, h2, cv, ev, ha, hb, hlen, hak, hbk, hab, hklt, hlt⟩
        | none =>
          rw [hout] at h
          exact absurd h (by simp)
    · rw [if_pos h2] at h
      injection h with h
      subst h
      exact ⟨rfl, rfl, rfl, h1, h2⟩
  · rw [if_pos h1] at h
    injection h with h
    subst h
    exact ⟨rfl, rfl, rfl, h1⟩

theorem reconcile_length : ∀ (i0 : Nat) (xs ys zs ws : List FuncFrame),
    xs.length = ys.length → xs.length = zs.length → xs.length = ws.length →
    (reconcile i0 xs ys zs ws).length = xs.length := by
  intro i0 xs
  induction xs generalizing i0 with
  | nil =>
    intro ys zs ws h1 h2 h3
    cases ys <;> cases zs <;> cases ws <;> simp [reconcile]
  | cons ci cis ih =>
    intro ys zs ws h1 h2 h3
    cases ys with
    | nil => simp at h1
    | cons co cos =>
      cases zs with
      | nil => simp at h2
      | cons ei eis =>
        cases ws with
        | nil => simp at h3
        | cons eo eos =>
          rw [reconcile]
          simp only [List.length_cons, Nat.add_right_cancel_iff] at h1 h2 h3 ⊢
          exact ih (i0 + 1) cos eis eos h1 h2 h3

theorem reconcile_getElem : ∀ (i0 : Nat) (xs ys zs ws : List FuncFrame) (n : Nat),
    xs.length = ys.length → xs.length = zs.length → xs.length = ws.length →
    n < xs.length →
    ∃ ci co ei eo, xs[n]? = some ci ∧ ys[n]? = some co ∧ zs[n]? = some ei
      ∧ ws[n]? = some eo
      ∧ (reconcile i0 xs ys zs ws)[n]? = some (check_func (i0 + n) ci co ei eo) := by
  intro i0 xs
  induction xs generalizing i0 with
  | nil =>
    intro ys zs ws n h1 h2 h3 hn
    simp at hn
  | cons ci cis ih =>
    intro ys zs ws n h1 h2 h3 hn
    cases ys with
    | nil => simp at h1
    | cons co cos =>
      cases zs with
      | nil => simp at h2
      | cons ei eis =>
        cases ws with
        | nil => simp at h3
        | cons eo eos =>
          cases n with
          | zero =>
            exact ⟨ci, co, ei, eo, by simp, by simp, by simp, by simp,
              by rw [reconcile]; simp⟩
          | succ n =>
            simp only [List.length_cons, Nat.add_right_cancel_iff] at h1 h2 h3
            obtain ⟨ci', co', ei', eo', ha, hb, hc, hd, hr⟩ :=
              ih (i0 + 1) cos eis eos n h1 h2 h3 (by simpa using hn)
            have harith : i0 + 1 + n = i0 + (n + 1) := by omega
            refine ⟨ci', co', ei', eo', by simpa using ha, by simpa using hb,
              by simpa using hc, by simpa using hd, ?_⟩
            rw [reconcile]
            rw [harith] at hr
            simpa using hr

/-- Elimination for a successful `run_dynamic_test`: all four finalized
buffers have exactly the expected function count and the results are the
reconciliation walk. -/
theorem run_dynamic_test_ok_elim (N : Nat) (b1 b2 b3 b4 : WriteBuffer)
    (rs : List (Except TestFailure Unit))
    (h : run_dynamic_test N b1 b2 b3 b4 = .ok rs) :
    b1.finish_tests.funcs.length = N ∧ b2.finish_tests.funcs.length = N
      ∧ b3.finish_tests.funcs.length = N ∧ b4.finish_tests.funcs.length = N
      ∧ rs = reconcile 0 b1.finish_tests.funcs b2.finish_tests.funcs
          b3.finish_tests.funcs b4.finish_tests.funcs := by
  simp only [run_dynamic_test] at h
  split at h
  · exact absurd h (by simp)
  · next hcond =>
    push_neg at hcond
    injection h with h
    exact ⟨hcond.1, hcond.2.1, hcond.2.2.1, hcond.2.2.2, h.symm⟩

/-- Claim C3: `run_dynamic_test` fails the whole pairing with
`TestCountMismatch` — carrying the expected count and the four observed
counts, and producing no per-subtest results — exactly when at least one of
the four finalized buffers holds a number of function frames different from
`test.funcs.len()`. -/
theorem C3_test_count_mismatch_iff (N : Nat) (b1 b2 b3 b4 : WriteBuffer) :
    run_dynamic_test N b1 b2 b3 b4
        = .error (.TestCountMismatch N b1.finish_tests.funcs.length
            b2.finish_tests.funcs.length b3.finish_tests.funcs.length
            b4.finish_tests.funcs.length)
      ↔ (b1.finish_tests.funcs.length ≠ N ∨ b2.finish_tests.funcs.length ≠ N
          ∨ b3.finish_tests.funcs.length ≠ N ∨ b4.finish_tests.funcs.length ≠ N) := by
  simp only [run_dynamic_test]
  split
  · next hcond => simpa using hcond
  · next hcond => simpa using hcond

/-- Claim C1: when the test-count check passes, the result recorded for
function index `i` is `Ok(())` exactly when the caller's and callee's
observation trees agree completely at that index — the input frames are
equal as nested byte lists (same value count, per-value field counts, and
field bytes), and likewise the output frames. -/
theorem C1_subtest_ok_iff_frames_agree (N : Nat) (b1 b2 b3 b4 : WriteBuffer)
    (results : List (Except TestFailure Unit))
    (h : run_dynamic_test N b1 b2 b3 b4 = .ok results) (i : Nat) (hi : i < N) :
    results[i]? = some (.ok ())
      ↔ (b1.finish_tests.funcs[i]? = b3.finish_tests.funcs[i]?
          ∧ b2.finish_tests.funcs[i]? = b4.finish_tests.funcs[i]?) := by
  obtain ⟨h1, h2, h3, h4, hrs⟩ := run_dynamic_test_ok_elim N b1 b2 b3 b4 results h
  obtain ⟨ci, co, ei, eo, ha, hb, hc, hd, hr⟩ :=
    reconcile_getElem 0 b1.finish_tests.funcs b2.finish_tests.funcs
      b3.finish_tests.funcs b4.finish_tests.funcs i (by omega) (by omega) (by omega)
      (by omega)
  rw [hrs, hr, ha, hb, hc, hd, Nat.zero_add]
  constructor
  · intro hok
    injection hok with hok
    have hiff := (check_func_ok_iff i ci co ei eo).mp hok
    exact ⟨by rw [hiff.1], by rw [hiff.2]⟩
  · intro hpair
    obtain ⟨hieq, hoeq⟩ := hpair
    injection hieq with hieq
    injection hoeq with hoeq
    exact congrArg some ((check_func_ok_iff i ci co ei eo).mpr ⟨hieq, hoeq⟩)

/-- Witness for C1 at a concrete run: one function frame, one matching input
value on both sides, no outputs; the single subtest result is `Ok(())` and
the frames agree. -/
theorem C1_subtest_ok_iff_frames_agree_witness :
    ([Except.ok ()] : List (Except TestFailure Unit))[0]? = some (.ok ())
      ↔ ((WriteBuffer.mk [[[[1]]], [[]]]).finish_tests.funcs[0]?
            = (WriteBuffer.mk [[[[1]]], [[]]]).finish_tests.funcs[0]?
          ∧ (WriteBuffer.mk [[], [[]]]).finish_tests.funcs[0]?
            = (WriteBuffer.mk [[], [[]]]).finish_tests.funcs[0]?) :=
  C1_subtest_ok_iff_frames_agree 1 ⟨[[[[1]]], [[]]]⟩ ⟨[[], [[]]]⟩ ⟨[[[[1]]], [[]]]⟩
    ⟨[[], [[]]]⟩ [Except.ok ()] rfl 0 (by decide)

/-- Claim C2: a successful `run_dynamic_test` pushes exactly one `Result`
per function frame (the results vector has length `test.funcs.len()`), and
any failure recorded at index `i` is the single first failure for that
subtest in the fixed priority order — input count, output count, then the
per-input-value walk (per-value field-count mismatch before per-field byte
mismatch), then the same for outputs — as characterized by `FailureSound`. -/
theorem C2_one_result_per_func_first_failure (N : Nat) (b1 b2 b3 b4 : WriteBuffer)
    (results : List (Except TestFailure Unit))
    (h : run_dynamic_test N b1 b2 b3 b4 = .ok results) :
    results.length = N
      ∧ ∀ i ci co ei eo e,
        b1.finish_tests.funcs[i]? = some ci →
        b2.finish_tests.funcs[i]? = some co →
        b3.finish_tests.funcs[i]? = some ei →
        b4.finish_tests.funcs[i]? = some eo →
        results[i]? = some (.error e) →
        FailureSound i ci co ei eo e := by
  obtain ⟨h1, h2, h3, h4, hrs⟩ := run_dynamic_test_ok_elim N b1 b2 b3 b4 results h
  constructor
  · rw [hrs, reconcile_length 0 _ _ _ _ (by omega) (by omega) (by omega)]
    exact h1
  · intro i ci co ei eo e ha hb hc hd hres
    have hi : i < N := by
      have := (List.getElem?_eq_some.mp ha).1
      omega
    obtain ⟨ci', co', ei', eo', ha', hb', hc', hd', hr⟩ :=
      reconcile_getElem 0 b1.finish_tests.funcs b2.finish_tests.funcs
        b3.finish_tests.funcs b4.finish_tests.funcs i (by omega) (by omega)
        (by omega) (by omega)
    rw [ha'] at ha
    rw [hb'] at hb
    rw [hc'] at hc
    rw [hd'] at hd
    injection ha with ha
    injection hb with hb
    injection hc with hc
    injection hd with hd
    rw [hrs, hr] at hres
    injection hres with hres
    rw [Nat.zero_add] at hres
    rw [ha, hb, hc, hd] at hres
    exact check_func_error_sound i ci co ei eo e hres

/-- Witness for C2 at a concrete failing run: one function frame whose
single input value disagrees on its only field (`[1]` vs `[9]`); the
recorded failure is `InputFieldMismatch(0, 0, 0, [1], [9])` and it satisfies
the first-failure characterization. -/
theorem C2_one_result_per_func_first_failure_witness :
    FailureSound 0 [[[1]]] [] [[[9]]] []
      (.InputFieldMismatch 0 0 0 [1] [9]) :=
  (C2_one_result_per_func_first_failure 1 ⟨[[[[1]]], [[]]]⟩ ⟨[[], [[]]]⟩
      ⟨[[[[9]]], [[]]]⟩ ⟨[[], [[]]]⟩
      [Except.error (TestFailure.InputFieldMismatch 0 0 0 [1] [9])] rfl).2
    0 [[[1]]] [] [[[9]]] [] (.InputFieldMismatch 0 0 0 [1] [9])
    rfl rfl rfl rfl rfl

/-! ### The handwritten-mixing gate -/

theorem convention_is_handwritten_iff (c : CallingConvention) :
    convention_is_handwritten c = true ↔ c = .Handwritten := by
  cases c <;> simp [convention_is_handwritten]

theorem is_handwritten_iff (test : Test) :
    is_handwritten test = true
      ↔ ∃ f ∈ test.funcs, ∃ c ∈ f.conventions, c = CallingConvention.Handwritten := by
  unfold is_handwritten
  simp [List.any_eq_true, convention_is_handwritten_iff]

theorem is_all_handwritten_iff (test : Test) :
    is_all_handwritten test = true
      ↔ ∀ f ∈ test.funcs, ∀ c ∈ f.conventions, c = CallingConvention.Handwritten := by
  unfold is_all_handwritten
  simp [List.all_eq_true, convention_is_handwritten_iff]

/-- Counterexample for C6 as stated: in a test whose single function lists
conventions `[Handwritten, C]`, the `Handwritten` convention is present in
every `Func` (so the claim predicts the generation step passes), yet
`do_test`'s gate rejects the test, because `is_all_handwritten` demands that
*every convention* of every function be `Handwritten`, not merely that every
function list it. -/
theorem C6_handwritten_counterexample :
    handwritten_check ⟨['t'], [⟨['f'], [.Handwritten, .C], [], none⟩]⟩
        = .error .HandwrittenMixing
      ∧ handwritten_all_or_none ⟨['t'], [⟨['f'], [.Handwritten, .C], [], none⟩]⟩ := by
  constructor
  · rfl
  · exact Or.inl (by decide)

/-- Claim C6, amended: a `Test` passes `do_test`'s handwritten gate (reached
before any source generation or compilation) iff either no `Func` lists
`Handwritten` among its conventions, or *every convention of every `Func`*
is `Handwritten`; otherwise the gate returns `HandwrittenMixing`. -/
theorem C6_handwritten_check_amended (test : Test) :
    (handwritten_check test = .ok ()
      ↔ ((∀ f ∈ test.funcs, ∀ c ∈ f.conventions, c ≠ CallingConvention.Handwritten)
        ∨ (∀ f ∈ test.funcs, ∀ c ∈ f.conventions, c = CallingConvention.Handwritten)))
    ∧ (handwritten_check test = .error .HandwrittenMixing
      ↔ ¬((∀ f ∈ test.funcs, ∀ c ∈ f.conventions, c ≠ CallingConvention.Handwritten)
        ∨ (∀ f ∈ test.funcs, ∀ c ∈ f.conventions, c = CallingConvention.Handwritten))) := by
  unfold handwritten_check
  by_cases hA : is_handwritten test = true
  · by_cases hB : is_all_handwritten test = true
    · rw [if_neg (by simp [hA, hB])]
      have hall := (is_all_handwritten_iff test).mp hB
      constructor
      · exact iff_of_true rfl (Or.inr hall)
      · exact iff_of_false (by simp) (by simp [Or.inr hall])
    · rw [if_pos (by simp [hA, Bool.not_eq_true] at hB ⊢; simp [hA, hB])]
      have hnot : ¬((∀ f ∈ test.funcs, ∀ c ∈ f.conventions,
            c ≠ CallingConvention.Handwritten)
          ∨ (∀ f ∈ test.funcs, ∀ c ∈ f.conventions,
            c = CallingConvention.Handwritten)) := by
        rintro (hnone | hall)
        · obtain ⟨f, hf, c, hc, hcH⟩ := (is_handwritten_iff test).mp hA
          exact hnone f hf c hc hcH
        · exact hB ((is_all_handwritten_iff test).mpr hall)
      exact ⟨iff_of_false (by simp) hnot, iff_of_true rfl hnot⟩
  · rw [if_neg (by simp [Bool.not_eq_true] at hA; simp [hA])]
    have hnone : ∀ f ∈ test.funcs, ∀ c ∈ f.conventions,
        c ≠ CallingConvention.Handwritten := by
      intro f hf c hc hcH
      exact hA ((is_handwritten_iff test).mpr ⟨f, hf, c, hc, hcH⟩)
    exact ⟨iff_of_true rfl (Or.inl hnone), iff_of_false (by simp) (by simp [Or.inl hnone])⟩

/-! ### The driver main loop -/

theorem foldl_push_eq_append {α : Type} (l : List α) :
    ∀ acc : List α, l.foldl (fun r x => r ++ [x]) acc = acc ++ l := by
  induction l with
  | nil => intro acc; simp
  | cons x xs ih =>
    intro acc
    rw [List.foldl_cons, ih (acc ++ [x])]
    simp

/-- Claim C9: the driver's run completes with `main` returning `Ok(())`
whatever the per-pairing outcomes were — subtest failures, missing or
unparsable manifests (`Io`/`ParseError`), compile errors and load errors
included — and every outcome is captured, in order, into the report list
rather than propagated to the process exit. -/
theorem C9_main_returns_ok_and_captures (outcomes : List (Except BuildError TestReport)) :
    main_driver outcomes = .ok () ∧ main_reports outcomes = outcomes := by
  refine ⟨rfl, ?_⟩
  unfold main_reports
  rw [foldl_push_eq_append]
  simp

/-! ### Decimal rendering: characters and injectivity -/

theorem natRepr_all_digits (n : Nat) : ∀ c ∈ natRepr n, c.isDigit = true := by
  intro c hc
  unfold natRepr at hc
  split at hc
  · simp only [List.mem_singleton] at hc
    subst hc
    decide
  · simp only [List.mem_reverse, List.mem_map] at hc
    obtain ⟨d, hd, rfl⟩ := hc
    have hdlt : d < 10 := Nat.digits_lt_base (by norm_num) hd
    have key : ∀ e, e < 10 → (Char.ofNat (48 + e)).isDigit = true := by decide
    exact key d hdlt

theorem map_digitChar_inj : ∀ (l1 l2 : List Nat), (∀ d ∈ l1, d < 10) → (∀ d ∈ l2, d < 10) →
    l1.map (fun d => Char.ofNat (48 + d)) = l2.map (fun d => Char.ofNat (48 + d)) →
    l1 = l2 := by
  intro l1
  induction l1 with
  | nil =>
    intro l2 _ _ h
    cases l2 with
    | nil => rfl
    | cons e es => simp at h
  | cons d ds ih =>
    intro l2 h1 h2 h
    cases l2 with
    | nil => simp at h
    | cons e es =>
      simp only [List.map_cons, List.cons.injEq] at h
      have hde : d = e := by
        have hd : d < 10 := h1 d (by simp)
        have he : e < 10 := h2 e (by simp)
        have key : ∀ x, x < 10 → ∀ y, y < 10 →
            Char.ofNat (48 + x) = Char.ofNat (48 + y) → x = y := by decide
        exact key d hd e he h.1
      rw [hde, ih es (fun x hx => h1 x (by simp [hx])) (fun x hx => h2 x (by simp [hx])) h.2]

theorem natRepr_zero_digits (n : Nat) (hn : n ≠ 0)
    (h : (Nat.digits 10 n).map (fun d => Char.ofNat (48 + d)) = ['0']) : False := by
  cases hdig : Nat.digits 10 n with
  | nil => rw [hdig] at h; simp at h
  | cons d ds =>
    rw [hdig] at h
    simp only [List.map_cons, List.cons.injEq, List.map_eq_nil_iff] at h
    have hds : ds = [] := by
      cases ds with
      | nil => rfl
      | cons x xs => simp at h
    subst hds
    have hd : d < 10 := Nat.digits_lt_base (by norm_num) (by rw [hdig]; simp)
    have hzero : d = 0 := by
      have key : ∀ x, x < 10 → Char.ofNat (48 + x) = '0' → x = 0 := by decide
      exact key d hd h.1
    rw [hzero] at hdig
    have hlift := congrArg (Nat.ofDigits 10) hdig
    rw [Nat.ofDigits_digits] at hlift
    simp [Nat.ofDigits] at hlift
    exact hn hlift

theorem natRepr_inj (m n : Nat) (h : natRepr m = natRepr n) : m = n := by
  unfold natRepr at h
  by_cases hm : m = 0 <;> by_cases hn : n = 0
  · rw [hm, hn]
  · rw [if_pos hm, if_neg hn] at h
    have h' : (Nat.digits 10 n).map (fun d => Char.ofNat (48 + d)) = ['0'] := by
      have := congrArg List.reverse h
      simpa using this.symm
    exact absurd (natRepr_zero_digits n hn h') id
  · rw [if_neg hm, if_pos hn] at h
    have h' : (Nat.digits 10 m).map (fun d => Char.ofNat (48 + d)) = ['0'] := by
      have := congrArg List.reverse h
      simpa using this
    exact absurd (natRepr_zero_digits m hm h') id
  · rw [if_neg hm, if_neg hn] at h
    have h' := List.reverse_injective h
    have hdig := map_digitChar_inj (Nat.digits 10 m) (Nat.digits 10 n)
      (fun d hd => Nat.digits_lt_base (by norm_num) hd)
      (fun d hd => Nat.digits_lt_base (by norm_num) hd) h'
    have := congrArg (Nat.ofDigits 10) hdig
    rwa [Nat.ofDigits_digits, Nat.ofDigits_digits] at this

/-- Splitting a digit run followed by an underscore separator is unambiguous:
the underscore is not a digit. -/
theorem append_sep_inj : ∀ (a1 a2 r1 r2 : List Char),
    (∀ c ∈ a1, c.isDigit = true) → (∀ c ∈ a2, c.isDigit = true) →
    a1 ++ '_' :: r1 = a2 ++ '_' :: r2 → a1 = a2 ∧ r1 = r2 := by
  intro a1
  induction a1 with
  | nil =>
    intro a2 r1 r2 _ h2 h
    cases a2 with
    | nil => simpa using h
    | cons c cs =>
      simp only [List.nil_append, List.cons_append, List.cons.injEq] at h
      have : c.isDigit = true := h2 c (by simp)
      rw [← h.1] at this
      exact absurd this (by decide)
  | cons c cs ih =>
    intro a2 r1 r2 h1 h2 h
    cases a2 with
    | nil =>
      simp only [List.cons_append, List.nil_append, List.cons.injEq] at h
      have : c.isDigit = true := h1 c (by simp)
      rw [h.1] at this
      exact absurd this (by decide)
    | cons e es =>
      simp only [List.cons_append, List.cons.injEq] at h
      obtain ⟨hce, hrest⟩ := h
      obtain ⟨ha, hr⟩ := ih es r1 r2 (fun x hx => h1 x (by simp [hx]))
        (fun x hx => h2 x (by simp [hx])) hrest
      exact ⟨by rw [hce, ha], hr⟩

/-! ### Shape and canonical-name lemmas -/

theorem structCoherent2_of_subset (v1 v2 w1 w2 : Val)
    (hsub : ∀ p, p ∈ structsIn w1 ++ structsIn w2 → p ∈ structsIn v1 ++ structsIn v2)
    (hc : structCoherent2 v1 v2) : structCoherent2 w1 w2 :=
  fun p hp q hq hname => hc p (hsub p hp) q (hsub q hq) hname

theorem shapeList_eq_map : ∀ l : List Val, shapeList l = l.map shape := by
  intro l
  induction l with
  | nil => simp [shapeList]
  | cons v vs ih => simp [shapeList, ih]

theorem shapeList_homog (hd : Val) (tl : List Val)
    (h : (hd :: tl).all (fun w => shape w == shape hd) = true) :
    shapeList (hd :: tl) = List.replicate (hd :: tl).length (shape hd) := by
  simp only [List.all_eq_true, beq_iff_eq] at h
  rw [shapeList_eq_map]
  refine List.eq_replicate_iff.mpr ⟨by simp, ?_⟩
  intro b hb
  rw [List.mem_map] at hb
  obtain ⟨w, hw, rfl⟩ := hb
  exact h w hw

theorem arg_ty_isSome : (v : Val) → arraysOk v = true → ∃ s, arg_ty v = some s
  | .Ref x, h => by
    have hx : arraysOk x = true := by simpa [arraysOk] using h
    obtain ⟨s, hs⟩ := arg_ty_isSome x hx
    exact ⟨'r' :: 'e' :: 'f' :: '_' :: s, by simp [arg_ty, hs]⟩
  | .Ptr _, _ => ⟨['p', 't', 'r'], rfl⟩
  | .Bool _, _ => ⟨['b', 'o', 'o', 'l'], rfl⟩
  | .Array [], h => by simp [arraysOk] at h
  | .Array (v :: rest), h => by
    have hv : arraysOk v = true := by
      simp only [arraysOk, arraysOkList, Bool.and_eq_true] at h
      exact h.1.1
    obtain ⟨s, hs⟩ := arg_ty_isSome v hv
    exact ⟨'a' :: 'r' :: 'r' :: '_' :: (natRepr (rest.length + 1) ++ '_' :: s),
      by simp [arg_ty, hs]⟩
  | .Struct name fields, _ => ⟨_, rfl⟩
  | .Float (.c_double _), _ => ⟨['f', '6', '4'], rfl⟩
  | .Float (.c_float _), _ => ⟨['f', '3', '2'], rfl⟩
  | .Int iv, _ => by cases iv <;> exact ⟨_, rfl⟩

theorem arg_ty_classify (v : Val) (s : List Char) (h : arg_ty v = some s) :
    ∃ c t, s = c :: t ∧ classifyChar c = argTyClass v := by
  cases v with
  | Ref x =>
    simp only [arg_ty] at h
    rw [Option.map_eq_some'] at h
    obtain ⟨sx, hsx, hf⟩ := h
    subst hf
    exact ⟨'r', _, rfl, rfl⟩
  | Ptr v =>
    simp only [arg_ty, Option.some.injEq] at h
    subst h
    exact ⟨'p', _, rfl, rfl⟩
  | Bool v =>
    simp only [arg_ty, Option.some.injEq] at h
    subst h
    exact ⟨'b', _, rfl, rfl⟩
  | Array vals =>
    cases vals with
    | nil => simp [arg_ty] at h
    | cons hd tl =>
      simp only [arg_ty] at h
      rw [Option.map_eq_some'] at h
      obtain ⟨sx, hsx, hf⟩ := h
      subst hf
      exact ⟨'a', _, rfl, rfl⟩
  | Struct name fields =>
    simp only [arg_ty, Option.some.injEq] at h
    subst h
    exact ⟨'s', _, rfl, rfl⟩
  | Float fv =>
    cases fv <;>
      (simp only [arg_ty, Option.some.injEq] at h; subst h; exact ⟨_, _, rfl, rfl⟩)
  | Int iv =>
    cases iv <;>
      (simp only [arg_ty, Option.some.injEq] at h; subst h; exact ⟨_, _, rfl, rfl⟩)

/-- Under the spec's data-model invariants — non-empty homogeneous arrays and
struct-name coherence — equal canonical names force equal type shapes. -/
theorem arg_ty_shape_inj_aux : ∀ (n : Nat) (v1 v2 : Val), sizeOf v1 ≤ n →
    arraysOk v1 = true → arraysOk v2 = true → structCoherent2 v1 v2 →
    arg_ty v1 = arg_ty v2 → shape v1 = shape v2 := by
  intro n
  induction n using Nat.strong_induction_on with
  | _ n ih =>
    intro v1 v2 hsz h1 h2 hc hn
    obtain ⟨s1, hs1⟩ := arg_ty_isSome v1 h1
    obtain ⟨s2, hs2⟩ := arg_ty_isSome v2 h2
    have hss : s1 = s2 := by
      rw [hs1, hs2] at hn
      exact Option.some.inj hn
    obtain ⟨c1, t1, hct1, hcl1⟩ := arg_ty_classify v1 s1 hs1
    obtain ⟨c2, t2, hct2, hcl2⟩ := arg_ty_classify v2 s2 hs2
    have hclass : argTyClass v1 = argTyClass v2 := by
      rw [← hcl1, ← hcl2]
      rw [hct1, hct2] at hss
      injection hss with hc12 ht12
      rw [hc12]
    clear hct1 hct2 hcl1 hcl2 hn
    cases v1 <;> cases v2
    all_goals try (exfalso; revert hclass; simp [argTyClass]; done)
    case Ref.Ref x1 x2 =>
      simp only [arg_ty] at hs1 hs2
      rw [Option.map_eq_some'] at hs1 hs2
      obtain ⟨sx1, hsx1, hf1⟩ := hs1
      obtain ⟨sx2, hsx2, hf2⟩ := hs2
      rw [← hf1, ← hf2] at hss
      have hsx : sx1 = sx2 := by simpa using hss
      have hx1 : arraysOk x1 = true := by simpa [arraysOk] using h1
      have hx2 : arraysOk x2 = true := by simpa [arraysOk] using h2
      have hcx : structCoherent2 x1 x2 := by
        unfold structCoherent2 at hc ⊢
        simpa [structsIn] using hc
      have hstep : sizeOf x1 < sizeOf (Val.Ref x1) := by
        simp [Val.Ref.sizeOf_spec]
      have hrec := ih (sizeOf x1) (by omega) x1 x2 (le_refl _) hx1 hx2 hcx
        (by rw [hsx1, hsx2, hsx])
      simp only [shape]
      rw [hrec]
    case Ptr.Ptr a b => rfl
    case Bool.Bool a b => rfl
    case Array.Array l1 l2 =>
      cases l1 with
      | nil => simp [arraysOk] at h1
      | cons hd1 tl1 =>
        cases l2 with
        | nil => simp [arraysOk] at h2
        | cons hd2 tl2 =>
          simp only [arg_ty] at hs1 hs2
          rw [Option.map_eq_some'] at hs1 hs2
          obtain ⟨sx1, hsx1, hf1⟩ := hs1
          obtain ⟨sx2, hsx2, hf2⟩ := hs2
          rw [← hf1, ← hf2] at hss
          have hss' : natRepr (hd1 :: tl1).length ++ '_' :: sx1
              = natRepr (hd2 :: tl2).length ++ '_' :: sx2 := by
            simpa using hss
          obtain ⟨hrep, hsx⟩ := append_sep_inj _ _ _ _
            (natRepr_all_digits _) (natRepr_all_digits _) hss'
          have hlen : (hd1 :: tl1).length = (hd2 :: tl2).length :=
            natRepr_inj _ _ hrep
          simp only [arraysOk, Bool.and_eq_true] at h1 h2
          obtain ⟨hl1, hall1⟩ := h1
          obtain ⟨hl2, hall2⟩ := h2
          have hhd1 : arraysOk hd1 = true := by
            simp only [arraysOkList, Bool.and_eq_true] at hl1
            exact hl1.1
          have hhd2 : arraysOk hd2 = true := by
            simp only [arraysOkList, Bool.and_eq_true] at hl2
            exact hl2.1
          have hchd : structCoherent2 hd1 hd2 := by
            refine structCoherent2_of_subset (Val.Array (hd1 :: tl1))
              (Val.Array (hd2 :: tl2)) hd1 hd2 ?_ hc
            intro p hp
            rw [List.mem_append] at hp ⊢
            cases hp with
            | inl hpl =>
              refine Or.inl ?_
              simp only [structsIn, structsInList]
              exact List.mem_append.mpr (Or.inl hpl)
            | inr hpr =>
              refine Or.inr ?_
              simp only [structsIn, structsInList]
              exact List.mem_append.mpr (Or.inl hpr)
          have hstep : sizeOf hd1 < sizeOf (Val.Array (hd1 :: tl1)) := by
            simp
            omega
          have hrec := ih (sizeOf hd1) (by omega) hd1 hd2 (le_refl _) hhd1 hhd2
            hchd (by rw [hsx1, hsx2, hsx])
          simp only [shape]
          rw [shapeList_homog hd1 tl1 hall1, shapeList_homog hd2 tl2 hall2,
            hrec, hlen]
    case Struct.Struct n1 f1 n2 f2 =>
      simp only [arg_ty, Option.some.injEq] at hs1 hs2
      subst hs1
      subst hs2
      have hname : n1 = n2 := by simpa using hss
      have hmem1 : ((n1, f1) : StrL × List Val)
          ∈ structsIn (Val.Struct n1 f1) ++ structsIn (Val.Struct n2 f2) := by
        simp [structsIn]
      have hmem2 : ((n2, f2) : StrL × List Val)
          ∈ structsIn (Val.Struct n1 f1) ++ structsIn (Val.Struct n2 f2) := by
        simp [structsIn]
      have hfields := hc (n1, f1) hmem1 (n2, f2) hmem2 hname
      simp only [shape]
      rw [hname, hfields]
    case Float.Float fv1 fv2 =>
      cases fv1 <;> cases fv2 <;>
        (simp only [arg_ty, Option.some.injEq] at hs1 hs2; subst hs1; subst hs2;
         first | rfl | simp at hss)
    case Int.Int iv1 iv2 =>
      cases iv1 <;> cases iv2 <;>
        (simp only [arg_ty, Option.some.injEq] at hs1 hs2; subst hs1; subst hs2;
         first | rfl | simp at hss)

/-- Counterexample for C7 as stated: `Struct("S", [Bool])` and
`Struct("S", [Ptr])` have distinct type shapes (their field shapes differ)
yet `arg_ty` gives both the same canonical name `struct_S`, because the name
of a struct ignores its fields. -/
theorem C7_arg_ty_counterexample :
    arg_ty (.Struct ['S'] [.Bool true]) = arg_ty (.Struct ['S'] [.Ptr 0])
      ∧ shape (.Struct ['S'] [.Bool true]) ≠ shape (.Struct ['S'] [.Ptr 0]) := by
  constructor
  · rfl
  · decide

/-- Claim C7, amended: for `Val`s satisfying the data model's invariants —
every array non-empty and homogeneous, and same-named structs (anywhere
inside the two values) carrying identical field shapes — `arg_ty` produces a
canonical name following the fixed schema (in particular it is defined, i.e.
`some`), and equal names imply equal type shapes. -/
theorem C7_arg_ty_schema_injective_amended (v1 v2 : Val)
    (h1 : arraysOk v1 = true) (h2 : arraysOk v2 = true)
    (hc : structCoherent2 v1 v2) :
    (arg_ty v1).isSome = true
      ∧ (arg_ty v1 = arg_ty v2 → shape v1 = shape v2) := by
  constructor
  · obtain ⟨s, hs⟩ := arg_ty_isSome v1 h1
    rw [hs]
    rfl
  · exact arg_ty_shape_inj_aux (sizeOf v1) v1 v2 (le_refl _) h1 h2 hc

/-- Witness for C7's amended claim on a concrete coherent pair of struct
values. -/
theorem C7_arg_ty_schema_injective_amended_witness :
    (arg_ty (.Struct ['S'] [.Int (.c_int8_t 0)])).isSome = true
      ∧ (arg_ty (.Struct ['S'] [.Int (.c_int8_t 0)])
            = arg_ty (.Struct ['S'] [.Int (.c_int8_t 1)])
          → shape (.Struct ['S'] [.Int (.c_int8_t 0)])
            = shape (.Struct ['S'] [.Int (.c_int8_t 1)])) :=
  C7_arg_ty_schema_injective_amended
    (.Struct ['S'] [.Int (.c_int8_t 0)]) (.Struct ['S'] [.Int (.c_int8_t 1)])
    rfl rfl (by decide)
